import Mathlib

/-!
Verification of the monodomain 2D Hodgkin-Huxley simulation script
(`src/python/monodomain_2D_HH.py`) against its design specification.

The script itself is a sequence of setup calls into the OpenCMISS iron
library; the constants, node loops, field initialisations and solver
staging below are embedded directly from the script.  The solver
library's internals (time-step orchestration, reaction integration,
field coupling, partition exchange) are not part of the repository, so
those components are modelled from the specification; each such
definition carries a doc comment starting `Modelled from the spec:`.

Numbers are embedded as exact rationals (the script's decimal literals
are exact decimal fractions).
-/

namespace Monodomain

/-! ## Constants embedded from the script (lines 17-33) -/

/-- Script line 19: `numberOfXElements = 25`. -/
def numberOfXElements : ℕ := 25

/-- Script line 20: `numberOfYElements = 13`. -/
def numberOfYElements : ℕ := 13

/-- Script line 23: `Am = 1936`. -/
def Am : ℚ := 1936

/-- Script line 24: `Cm = 1.4`. -/
def Cm : ℚ := 14 / 10

/-- Script line 25: `conductivity = 1.0`. -/
def conductivity : ℚ := 1

/-- Script line 28: `stimValue = -5000.0`. -/
def stimValue : ℚ := -5000

/-- Script line 29: `stimStop = 0.2`. -/
def stimStop : ℚ := 2 / 10

/-- Script line 30: `timeStop = 0.7`. -/
def timeStop : ℚ := 7 / 10

/-- Script line 31: `odeTimeStep = 0.00001`. -/
def odeTimeStep : ℚ := 1 / 100000

/-- Script line 32: `pdeTimeStep = 0.001`. -/
def pdeTimeStep : ℚ := 1 / 1000

/-- Script line 244: `lastNodeNumber = (numberOfXElements+1)*(numberOfYElements+1)`. -/
def lastNodeNumber : ℕ := (numberOfXElements + 1) * (numberOfYElements + 1)

/-! ## Stimulus node selection (script lines 250 and 313)

Both stimulus loops iterate `for node in range(1,(numberOfXElements + 1)/2 + 1)`,
with Python 2 truncating integer division, i.e. user node numbers
`1 .. (numberOfXElements+1)/2` where `/` is `Nat` division. -/

/-- The node numbers visited by the two stimulus loops:
`range(1,(numberOfXElements + 1)/2 + 1)` with truncating division. -/
def stimulusNodes : List ℕ :=
  (List.range ((numberOfXElements + 1) / 2)).map (fun k => k + 1)

/-- Script lines 250-253 / 313-317, one worker's view: worker `w` writes value
`v` into the per-node stimulus parameter `p` at exactly the loop's nodes whose
domain (under the decomposition's node-to-domain map `domainOf`) equals `w`;
every other node's parameter is left as it was. -/
def stimWrite (v : ℚ) (domainOf : ℕ → ℕ) (w : ℕ) (p : ℕ → ℚ) : ℕ → ℚ :=
  fun n => if n ∈ stimulusNodes ∧ domainOf n = w then v else p n

/-- The write-guard of the stimulus loops: worker `w` writes node `n`'s
stimulus parameter iff `n` is in the loop range and
`decomposition.NodeDomainGet(n,1) == computationalNodeNumber` (script
lines 251-252 and 315-316). -/
def writesStim (domainOf : ℕ → ℕ) (w n : ℕ) : Prop :=
  n ∈ stimulusNodes ∧ domainOf n = w

instance (domainOf : ℕ → ℕ) (w n : ℕ) : Decidable (writesStim domainOf w n) := by
  unfold writesStim; infer_instance

/-! ## Field initialisations embedded from the script -/

/-- Script line 201: the dependent field's component 1 (the transmembrane
potential Vm) is initialised to `-75` at every node. -/
def initialVm : ℚ := -75

/-- The dependent field voltage component after
`dependentField.ComponentValuesInitialise(U, VALUES, 1, -75)`: every node
holds `initialVm`. -/
def initialVoltageField : ℕ → ℚ := fun _ => initialVm

/-- Script lines 155-160: the materials field per-component constant values,
component 1 = Am, component 2 = Cm, components 3 and 4 = conductivity
(`ComponentValuesInitialise` sets the given component at every node). -/
def materialsComponentValue (c : ℕ) : ℚ :=
  if c = 1 then Am
  else if c = 2 then Cm
  else if c = 3 then conductivity
  else if c = 4 then conductivity
  else 0

/-- The materials field value at component `c`, node `n`: constant per
component over all nodes. -/
def materialsFieldValue (c _n : ℕ) : ℚ := materialsComponentValue c

/-- Script lines 226-227: the CellML parameters field component for
`"membrane/Cm"` is initialised to `Cm` at every node. -/
def cellMLCmParameter : ℕ → ℚ := fun _ => Cm

/-! ## CellML variable flagging and field maps (script lines 179-195) -/

/-- Script lines 179-180: variables set as known (set from OpenCMISS). -/
def knownVariables : List String := ["membrane/i_Stim", "membrane/Cm"]

/-- Script line 182: variables set as wanted (got from the CellML model). -/
def wantedVariables : List String := ["membrane/i_K"]

/-- Script line 194: the field-to-CellML map, dependent field component 1 to
the named model variable. -/
def fieldToCellMLMaps : List (ℕ × String) := [(1, "membrane/V")]

/-- Script line 195: the CellML-to-field map, the named model variable to
dependent field component 1. -/
def cellMLToFieldMaps : List (String × ℕ) := [("membrane/V", 1)]

/-! ## Problem definition and solver staging (script lines 255-302) -/

inductive ProblemClass
  | bioelectrics
  deriving DecidableEq

inductive ProblemType
  | monodomainEquation
  deriving DecidableEq

inductive ProblemSubtype
  | monodomainGudunovSplit
  deriving DecidableEq

structure ProblemSpec where
  pclass : ProblemClass
  ptype : ProblemType
  psubtype : ProblemSubtype
  deriving DecidableEq

/-- Script lines 258-260: `problemSpecification = [BIOELECTRICS,
MONODOMAIN_EQUATION, MONODOMAIN_GUDUNOV_SPLIT]`. -/
def problemSpecification : ProblemSpec :=
  ⟨ProblemClass.bioelectrics, ProblemType.monodomainEquation,
   ProblemSubtype.monodomainGudunovSplit⟩

/-- Script line 279: the DAE (reaction) solver is solver index 1 of the
control loop. -/
def daeSolverIndex : ℕ := 1

/-- Script line 283: the dynamic (diffusion) solver is solver index 2 of the
control loop. -/
def dynamicSolverIndex : ℕ := 2

/-! ## The time-step orchestrator, modelled from the spec

The operator-split engine itself lives in the solver library, outside the
repository; the definitions below model it from the specification's
Time-Step Orchestrator contract (spec section 4.1). -/

/-- The six phases of one PDE increment, in the spec's order. -/
inductive Phase
  | pushStimulus
  | reactIntegrate
  | pullVoltage
  | diffuseSolve
  | pushVoltage
  | partitionExchange
  deriving DecidableEq

/-- Modelled from the spec: the coupled simulation state — the reaction
state (per-node named ODE variables and parameters, abstract type `σ`)
and the field store's voltage field over nodes. -/
structure CoupledState (σ : Type) where
  reaction : σ
  field : ℕ → ℚ

/-- Modelled from the spec: the capability interface the orchestrator drives.
`pushStim` copies externally-set stimulus values into the reaction state;
`integrate dt` advances the reaction ODEs over an interval of length `dt`;
`getV` reads the per-node membrane voltage out of the reaction state;
`setV f` overwrites the reaction state's voltage with the field `f`;
`diffuse f dt` performs one deterministic global PDE solve from previous
voltage `f`; `exchange` reconciles halo field values across workers. -/
structure Engine (σ : Type) where
  pushStim : σ → σ
  integrate : ℚ → σ → σ
  getV : σ → ℕ → ℚ
  setV : (ℕ → ℚ) → σ → σ
  diffuse : (ℕ → ℚ) → ℚ → (ℕ → ℚ)
  exchange : (ℕ → ℚ) → (ℕ → ℚ)

/-- The six-phase schedule of one PDE increment. -/
def stepPhases : List Phase :=
  [Phase.pushStimulus, Phase.reactIntegrate, Phase.pullVoltage,
   Phase.diffuseSolve, Phase.pushVoltage, Phase.partitionExchange]

/-- Modelled from the spec: one PDE increment of the Godunov-split
orchestrator, returning the new coupled state together with the trace of
phases performed, in order: (1) push stimulus into the reaction state,
(2) integrate the reaction ODEs over the increment, (3) pull the updated
voltage into the field store, (4) one diffusion solve from that voltage,
(5) push the diffused voltage back into the reaction state, (6) reconcile
halo values. -/
def godunovStep {σ : Type} (E : Engine σ) (dt : ℚ) (s : CoupledState σ) :
    CoupledState σ × List Phase :=
  let s1 : CoupledState σ := ⟨E.pushStim s.reaction, s.field⟩
  let s2 : CoupledState σ := ⟨E.integrate dt s1.reaction, s1.field⟩
  let s3 : CoupledState σ := ⟨s2.reaction, E.getV s2.reaction⟩
  let s4 : CoupledState σ := ⟨s3.reaction, E.diffuse s3.field dt⟩
  let s5 : CoupledState σ := ⟨E.setV s4.field s4.reaction, s4.field⟩
  let s6 : CoupledState σ := ⟨s5.reaction, E.exchange s5.field⟩
  (s6, stepPhases)

/-- Modelled from the spec: `k` successive PDE increments, threading the
state and concatenating the phase traces. -/
def runSteps {σ : Type} (E : Engine σ) (dt : ℚ) :
    ℕ → CoupledState σ → CoupledState σ × List Phase
  | 0, s => (s, [])
  | k + 1, s =>
    let r := godunovStep E dt s
    let rest := runSteps E dt k r.1
    (rest.1, r.2 ++ rest.2)

/-- The number of PDE increments of a control-loop interval
`TimesSet(start, stop, dt)`: `(stop - start) / dt` (exact in the script's
configurations). -/
def intervalSteps (start stop dt : ℚ) : ℕ := ((stop - start) / dt).num.toNat

/-- Modelled from the spec: one orchestrator call over an interval, as set
by `controlLoop.TimesSet(start, stop, dt)` followed by `problem.Solve()`:
it advances the given state, never resetting it. -/
def runInterval {σ : Type} (E : Engine σ) (start stop dt : ℚ)
    (s : CoupledState σ) : CoupledState σ × List Phase :=
  runSteps E dt (intervalSteps start stop dt) s

/-! ## Step-size configuration check, modelled from the spec -/

/-- The configuration-error message for a non-dividing ODE sub-step. -/
def stepConfigError : String := "dtSub does not evenly divide the interval"

/-- Modelled from the spec: the reaction integrator's step configuration —
the ODE sub-step `dtSub` and the PDE step it must evenly divide. -/
structure RunConfig where
  dtSub : ℚ
  pdeStep : ℚ
  deriving DecidableEq

/-- Modelled from the spec: the pre-run validation that the PDE step size is
a (positive) integer multiple of the ODE sub-step size, performed before
any time stepping begins. -/
def validateConfig (c : RunConfig) : Except String Unit :=
  if (c.pdeStep / c.dtSub).den = 1 ∧ 0 < (c.pdeStep / c.dtSub).num then
    Except.ok ()
  else
    Except.error stepConfigError

/-- Modelled from the spec: starting a run first validates the step
configuration; on failure it reports the configuration error without
performing any step (the given state is untouched), otherwise it runs the
requested number of PDE increments. -/
def startRun {σ : Type} (E : Engine σ) (c : RunConfig) (k : ℕ)
    (s : CoupledState σ) : Except String (CoupledState σ) :=
  match validateConfig c with
  | Except.ok _ => Except.ok (runSteps E c.pdeStep k s).1
  | Except.error e => Except.error e

/-! ## Field coupler, modelled from the spec -/

/-- Modelled from the spec: the reaction model as seen by the coupler — the
set of named variables it exposes. -/
structure ReactionModel where
  vars : List String

/-- The mapping-configuration error message of the field coupler. -/
def mappingError : String := "named variable not found in the reaction model"

/-- Every field-to-model mapped name resolves in the reaction model. -/
def pushResolves (mapping : List (ℕ × String)) (m : ReactionModel) : Bool :=
  mapping.all (fun p => m.vars.contains p.2)

/-- Every model-to-field mapped name resolves in the reaction model. -/
def pullResolves (mapping : List (String × ℕ)) (m : ReactionModel) : Bool :=
  mapping.all (fun p => m.vars.contains p.1)

/-- One pass over the owned nodes copying every mapped field component into
the correspondingly named reaction variable; unmapped variables and
un-owned nodes keep their values. -/
def applyPush (mapping : List (ℕ × String)) (nodes : List ℕ)
    (fieldVal : ℕ → ℕ → ℚ) (rs : ℕ → String → ℚ) : ℕ → String → ℚ :=
  fun n v =>
    if n ∈ nodes then
      match mapping.find? (fun p => p.2 == v) with
      | some p => fieldVal p.1 n
      | none => rs n v
    else rs n v

/-- One pass over the owned nodes copying every mapped reaction variable
into the corresponding field component; unmapped components and un-owned
nodes keep their values. -/
def applyPull (mapping : List (String × ℕ)) (nodes : List ℕ)
    (rs : ℕ → String → ℚ) (fieldVal : ℕ → ℕ → ℚ) : ℕ → ℕ → ℚ :=
  fun c n =>
    if n ∈ nodes then
      match mapping.find? (fun p => p.2 == c) with
      | some p => rs n p.1
      | none => fieldVal c n
    else fieldVal c n

/-- Modelled from the spec: `pushToReaction()` — if any mapped name fails to
resolve in the reaction model the call fails with a mapping-configuration
error and produces no updated state; otherwise it copies every mapped
variable for all owned nodes. -/
def pushToReaction (mapping : List (ℕ × String)) (m : ReactionModel)
    (nodes : List ℕ) (fieldVal : ℕ → ℕ → ℚ) (rs : ℕ → String → ℚ) :
    Except String (ℕ → String → ℚ) :=
  if pushResolves mapping m then Except.ok (applyPush mapping nodes fieldVal rs)
  else Except.error mappingError

/-- Modelled from the spec: `pullFromReaction()` — the symmetric direction,
with the same all-or-nothing behaviour. -/
def pullFromReaction (mapping : List (String × ℕ)) (m : ReactionModel)
    (nodes : List ℕ) (rs : ℕ → String → ℚ) (fieldVal : ℕ → ℕ → ℚ) :
    Except String (ℕ → ℕ → ℚ) :=
  if pullResolves mapping m then Except.ok (applyPull mapping nodes rs fieldVal)
  else Except.error mappingError

/-! ## Partition exchange, modelled from the spec -/

/-- Modelled from the spec: `reconcile()` — given each worker's local copy
of the field (`fields w n` is worker `w`'s value at node `n`), every
worker's copy of every node it does not own (its halo copies) is replaced
by the owning worker's value; owned values are authoritative and are kept. -/
def reconcile (domainOf : ℕ → ℕ) (fields : ℕ → ℕ → ℚ) : ℕ → ℕ → ℚ :=
  fun _w n => fields (domainOf n) n

/-! ## Partitioned versus single-partition stepping, modelled from the spec -/

/-- Modelled from the spec: worker `w`'s local reaction pass — it applies the
per-node reaction update `react` to exactly the nodes it owns, leaving other
nodes' values as they were. -/
def workerLocalField (domainOf : ℕ → ℕ) (react : ℕ → ℚ → ℚ) (f : ℕ → ℚ)
    (w : ℕ) : ℕ → ℚ :=
  fun n => if domainOf n = w then react n (f n) else f n

/-- Modelled from the spec: the assembled global field after the workers'
local passes — each node's value is taken from its owning worker
(single-owner invariant). -/
def assembleField (domainOf : ℕ → ℕ) (localF : ℕ → ℕ → ℚ) : ℕ → ℚ :=
  fun n => localF (domainOf n) n

/-- Modelled from the spec: one PDE step of the decomposed run — every
worker updates its owned nodes' reaction values, the global field is
assembled from the owners, and the deterministic global diffusion solve
`diffuse` is applied to the assembled field. -/
def partitionedPdeStep (domainOf : ℕ → ℕ) (react : ℕ → ℚ → ℚ)
    (diffuse : (ℕ → ℚ) → (ℕ → ℚ)) (f : ℕ → ℚ) : ℕ → ℚ :=
  diffuse (assembleField domainOf (workerLocalField domainOf react f))

/-- `k` PDE steps of the decomposed run. -/
def partitionedRun (domainOf : ℕ → ℕ) (react : ℕ → ℚ → ℚ)
    (diffuse : (ℕ → ℚ) → (ℕ → ℚ)) : ℕ → (ℕ → ℚ) → (ℕ → ℚ)
  | 0, f => f
  | k + 1, f => partitionedRun domainOf react diffuse k
      (partitionedPdeStep domainOf react diffuse f)

/-- The one-partition decomposition: a single worker owns every node. -/
def singleDomain : ℕ → ℕ := fun _ => 0

/-- A two-partition decomposition of the mesh's nodes: the lower-numbered
half to worker 0, the rest to worker 1. -/
def twoDomain : ℕ → ℕ := fun n => if n ≤ lastNodeNumber / 2 then 0 else 1

/-- A concrete engine instance over reaction states that are just per-node
voltages, with identity dynamics; used to instantiate general theorems. -/
def trivEngine : Engine (ℕ → ℚ) :=
  ⟨id, fun _ s => s, id, fun f _ => f, fun f _ => f, id⟩

/-- The all-resting coupled state for the concrete engine. -/
def restState : CoupledState (ℕ → ℚ) :=
  ⟨fun _ => initialVm, fun _ => initialVm⟩

/-! ## Helper lemmas -/

theorem runSteps_trace {σ : Type} (E : Engine σ) (dt : ℚ) :
    ∀ (k : ℕ) (s : CoupledState σ),
      (runSteps E dt k s).2 = (List.replicate k stepPhases).flatten := by
  intro k
  induction k with
  | zero => intro s; rfl
  | succ k ih =>
    intro s
    show stepPhases ++ (runSteps E dt k (godunovStep E dt s).1).2 = _
    rw [ih]
    rfl

theorem runSteps_add {σ : Type} (E : Engine σ) (dt : ℚ) :
    ∀ (n m : ℕ) (s : CoupledState σ),
      (runSteps E dt (n + m) s).1 = (runSteps E dt m (runSteps E dt n s).1).1 := by
  intro n
  induction n with
  | zero =>
    intro m s
    rw [Nat.zero_add]
    rfl
  | succ k ih =>
    intro m s
    have h : k + 1 + m = (k + m) + 1 := by omega
    rw [h]
    exact ih m (godunovStep E dt s).1

theorem validateConfig_ok_iff (c : RunConfig) (h : 0 < c.dtSub) :
    validateConfig c = Except.ok () ↔
      ∃ k : ℕ, 0 < k ∧ c.pdeStep = (k : ℚ) * c.dtSub := by
  have hne : c.dtSub ≠ 0 := ne_of_gt h
  unfold validateConfig
  constructor
  · intro hok
    have hc : (c.pdeStep / c.dtSub).den = 1 ∧ 0 < (c.pdeStep / c.dtSub).num := by
      by_contra hc
      rw [if_neg hc] at hok
      exact Except.noConfusion hok
    obtain ⟨hden, hnum⟩ := hc
    refine ⟨(c.pdeStep / c.dtSub).num.toNat, by omega, ?_⟩
    have hint : ((c.pdeStep / c.dtSub).num : ℚ) = c.pdeStep / c.dtSub :=
      Rat.coe_int_num_of_den_eq_one hden
    have h2 : (((c.pdeStep / c.dtSub).num.toNat : ℕ) : ℚ) = c.pdeStep / c.dtSub := by
      rw [← hint]
      exact_mod_cast congrArg (fun z : ℤ => (z : ℚ)) (Int.toNat_of_nonneg hnum.le)
    rw [h2, div_mul_cancel₀ _ hne]
  · rintro ⟨k, hk, hstep⟩
    have hr : c.pdeStep / c.dtSub = (k : ℚ) := by
      rw [hstep, mul_div_assoc, div_self hne, mul_one]
    rw [if_pos]
    rw [hr]
    refine ⟨Rat.den_natCast k, ?_⟩
    rw [Rat.num_natCast]
    exact_mod_cast hk

theorem intervalSteps_eval :
    intervalSteps 0 stimStop pdeTimeStep = 200 ∧
    intervalSteps stimStop timeStop pdeTimeStep = 500 ∧
    intervalSteps 0 timeStop pdeTimeStep = 700 := by
  refine ⟨?_, ?_, ?_⟩
  · have h : (stimStop - 0) / pdeTimeStep = (200 : ℚ) := by
      norm_num [stimStop, pdeTimeStep]
    unfold intervalSteps
    rw [h]
    simp
  · have h : (timeStop - stimStop) / pdeTimeStep = (500 : ℚ) := by
      norm_num [stimStop, timeStop, pdeTimeStep]
    unfold intervalSteps
    rw [h]
    simp
  · have h : (timeStop - 0) / pdeTimeStep = (700 : ℚ) := by
      norm_num [timeStop, pdeTimeStep]
    unfold intervalSteps
    rw [h]
    simp

theorem partitionedPdeStep_eq (domainOf : ℕ → ℕ) (react : ℕ → ℚ → ℚ)
    (diffuse : (ℕ → ℚ) → (ℕ → ℚ)) (f : ℕ → ℚ) :
    partitionedPdeStep domainOf react diffuse f = diffuse (fun n => react n (f n)) := by
  unfold partitionedPdeStep assembleField workerLocalField
  simp

theorem partitionedRun_domain_free (react : ℕ → ℚ → ℚ)
    (diffuse : (ℕ → ℚ) → (ℕ → ℚ)) :
    ∀ (k : ℕ) (domainA domainB : ℕ → ℕ) (f : ℕ → ℚ),
      partitionedRun domainA react diffuse k f =
        partitionedRun domainB react diffuse k f := by
  intro k
  induction k with
  | zero => intro dA dB f; rfl
  | succ k ih =>
    intro dA dB f
    show partitionedRun dA react diffuse k (partitionedPdeStep dA react diffuse f) =
      partitionedRun dB react diffuse k (partitionedPdeStep dB react diffuse f)
    rw [partitionedPdeStep_eq dA, partitionedPdeStep_eq dB]
    exact ih dA dB _

/-! ## Claim theorems -/

/-- Claim C1: every PDE increment of the orchestrator performs, in order,
(1) push stimulus into the reaction state, (2) integrate the reaction ODEs
over the increment, (3) pull the updated voltage into the field store,
(4) one diffusion solve using that voltage as the previous-step value,
(5) push the diffused voltage back into the reaction state, (6) reconcile
halo values; the problem is declared as first-order Godunov splitting with
the DAE solver (index 1) staged strictly before the dynamic solver
(index 2) in every step. -/
theorem claim1_godunov_step_sequence :
    problemSpecification.psubtype = ProblemSubtype.monodomainGudunovSplit ∧
    daeSolverIndex < dynamicSolverIndex ∧
    stepPhases = [Phase.pushStimulus, Phase.reactIntegrate, Phase.pullVoltage,
      Phase.diffuseSolve, Phase.pushVoltage, Phase.partitionExchange] ∧
    (∀ (σ : Type) (E : Engine σ) (dt : ℚ) (s : CoupledState σ),
      (godunovStep E dt s).2 = stepPhases ∧
      (godunovStep E dt s).1.field =
        E.exchange (E.diffuse (E.getV (E.integrate dt (E.pushStim s.reaction))) dt) ∧
      (godunovStep E dt s).1.reaction =
        E.setV (E.diffuse (E.getV (E.integrate dt (E.pushStim s.reaction))) dt)
          (E.integrate dt (E.pushStim s.reaction))) ∧
    (∀ (σ : Type) (E : Engine σ) (dt : ℚ) (k : ℕ) (s : CoupledState σ),
      (runSteps E dt k s).2 = (List.replicate k stepPhases).flatten) :=
  ⟨rfl, by decide, rfl, fun _ E dt s => ⟨rfl, rfl, rfl⟩,
   fun _ E dt k s => runSteps_trace E dt k s⟩

/-- Claim C3: the stimulus node set of both orchestrator-level phases is
exactly the loop range nodes 1 .. (numberOfXElements+1)/2 under truncating
integer division, i.e. nodes 1..13 for 25 x-elements; the per-node stimulus
parameter on owned nodes of that set is set to stimValue = -5000 before the
first solve interval and to 0 before the second; no other node's stimulus
parameter is ever written. -/
theorem claim3_stimulus_nodes :
    stimulusNodes = [1, 2, 3, 4, 5, 6, 7, 8, 9, 10, 11, 12, 13] ∧
    (numberOfXElements + 1) / 2 = 13 ∧
    stimValue = -5000 ∧
    (∀ (domainOf : ℕ → ℕ) (w : ℕ) (p : ℕ → ℚ) (n : ℕ),
      n ∈ stimulusNodes → domainOf n = w →
        stimWrite stimValue domainOf w p n = stimValue ∧
        stimWrite 0 domainOf w p n = 0) ∧
    (∀ (v : ℚ) (domainOf : ℕ → ℕ) (w : ℕ) (p : ℕ → ℚ) (n : ℕ),
      n ∉ stimulusNodes → stimWrite v domainOf w p n = p n) := by
  refine ⟨by decide, by decide, rfl, ?_, ?_⟩
  · intro domainOf w p n hn hw
    constructor
    · show (if n ∈ stimulusNodes ∧ domainOf n = w then stimValue else p n) = stimValue
      rw [if_pos ⟨hn, hw⟩]
    · show (if n ∈ stimulusNodes ∧ domainOf n = w then (0 : ℚ) else p n) = 0
      rw [if_pos ⟨hn, hw⟩]
  · intro v domainOf w p n hn
    show (if n ∈ stimulusNodes ∧ domainOf n = w then v else p n) = p n
    rw [if_neg (fun hc => hn hc.1)]

/-- Witness for C3 at concrete inputs: node 5 (in the stimulated set, owned)
receives the stimulus value and later 0; node 14 (outside the set) keeps its
prior parameter value. -/
theorem claim3_witness :
    stimWrite stimValue singleDomain 0 (fun _ => 0) 5 = stimValue ∧
    stimWrite 0 singleDomain 0 (fun _ => 0) 13 = 0 ∧
    stimWrite stimValue singleDomain 0 (fun _ => 0) 14 = 0 :=
  ⟨(claim3_stimulus_nodes.2.2.2.1 singleDomain 0 (fun _ => 0) 5 (by decide) rfl).1,
   (claim3_stimulus_nodes.2.2.2.1 singleDomain 0 (fun _ => 0) 13 (by decide) rfl).2,
   claim3_stimulus_nodes.2.2.2.2 stimValue singleDomain 0 (fun _ => 0) 14 (by decide)⟩

/-- Counterexample to C2 as stated: the claim's example pair
`dtSub = 0.00001`, `pdeStep = 0.00015` is not a non-integer ratio — the
ratio is exactly 15, so the configuration check passes and the run starts
rather than failing. -/
theorem claim2_counterexample :
    (15 / 100000 : ℚ) / (1 / 100000 : ℚ) = 15 ∧
    validateConfig ⟨1 / 100000, 15 / 100000⟩ = Except.ok () ∧
    startRun trivEngine ⟨1 / 100000, 15 / 100000⟩ 1 restState =
      Except.ok (runSteps trivEngine (15 / 100000) 1 restState).1 := by
  have hok : validateConfig ⟨1 / 100000, 15 / 100000⟩ = Except.ok () :=
    (validateConfig_ok_iff ⟨1 / 100000, 15 / 100000⟩ (by norm_num)).mpr
      ⟨15, by norm_num, by norm_num⟩
  refine ⟨by norm_num, hok, ?_⟩
  unfold startRun
  rw [hok]

/-- Claim C2 (amended): if the ODE sub-step size does not evenly divide the
PDE step size (for example dtSub = 0.00002 with pdeStep = 0.00015, a
non-integer ratio of 7.5), the run fails as a configuration error before
any time stepping begins, with no partial state mutation; the configured
run (odeTimeStep = 0.00001, pdeTimeStep = 0.001, an exact ratio of 100)
satisfies the precondition and starts. -/
theorem claim2_amended_divisibility :
    (∀ c : RunConfig, 0 < c.dtSub →
      (validateConfig c = Except.ok () ↔
        ∃ k : ℕ, 0 < k ∧ c.pdeStep = (k : ℚ) * c.dtSub)) ∧
    (∀ (σ : Type) (E : Engine σ) (c : RunConfig) (k : ℕ) (s : CoupledState σ),
      validateConfig c = Except.error stepConfigError →
        startRun E c k s = Except.error stepConfigError) ∧
    (∀ (σ : Type) (E : Engine σ) (c : RunConfig) (k : ℕ) (s : CoupledState σ),
      validateConfig c = Except.ok () →
        startRun E c k s = Except.ok (runSteps E c.pdeStep k s).1) ∧
    validateConfig ⟨2 / 100000, 15 / 100000⟩ = Except.error stepConfigError ∧
    validateConfig ⟨odeTimeStep, pdeTimeStep⟩ = Except.ok () ∧
    pdeTimeStep / odeTimeStep = 100 := by
  refine ⟨validateConfig_ok_iff, ?_, ?_, ?_, ?_, by norm_num [pdeTimeStep, odeTimeStep]⟩
  · intro σ E c k s h
    unfold startRun
    rw [h]
  · intro σ E c k s h
    unfold startRun
    rw [h]
  · unfold validateConfig
    split
    · next hc =>
      exfalso
      have hok : validateConfig ⟨2 / 100000, 15 / 100000⟩ = Except.ok () := by
        unfold validateConfig
        rw [if_pos hc]
      obtain ⟨k, _hk, heq⟩ :=
        (validateConfig_ok_iff ⟨2 / 100000, 15 / 100000⟩ (by norm_num)).mp hok
      have h2 : ((2 * k : ℕ) : ℚ) = 15 := by
        push_cast
        have h0 : (15 / 100000 : ℚ) = (k : ℚ) * (2 / 100000) := heq
        field_simp at h0
        linarith
      have h3 : (2 * k : ℕ) = 15 := by exact_mod_cast h2
      omega
    · rfl
  · exact (validateConfig_ok_iff ⟨odeTimeStep, pdeTimeStep⟩
      (by norm_num [odeTimeStep])).mpr
      ⟨100, by norm_num, by norm_num [pdeTimeStep, odeTimeStep]⟩

/-- Witness for the amended C2 at the script's configuration: the step check
accepts the exact ratio 100 and the run starts. -/
theorem claim2_witness :
    validateConfig ⟨odeTimeStep, pdeTimeStep⟩ = Except.ok () ∧
    startRun trivEngine ⟨odeTimeStep, pdeTimeStep⟩ 2 restState =
      Except.ok (runSteps trivEngine pdeTimeStep 2 restState).1 := by
  have hok : validateConfig ⟨odeTimeStep, pdeTimeStep⟩ = Except.ok () :=
    (claim2_amended_divisibility.1 ⟨odeTimeStep, pdeTimeStep⟩
        (by norm_num [odeTimeStep])).mpr
      ⟨100, by norm_num, by norm_num [pdeTimeStep, odeTimeStep]⟩
  exact ⟨hok, claim2_amended_divisibility.2.2.1 (ℕ → ℚ) trivEngine
    ⟨odeTimeStep, pdeTimeStep⟩ 2 restState hok⟩

/-- Claim C4: the orchestrator is re-entrant — a second solve call continues
from exactly the state the first call produced, with no reset: running the
remaining increments from the first call's final state equals one
uninterrupted run, and the script's two intervals [0, 0.2] and [0.2, 0.7]
at pdeTimeStep = 0.001 are 200 and 500 increments composing to the full
700-increment run. -/
theorem claim4_reentrant_run :
    (∀ (σ : Type) (E : Engine σ) (dt : ℚ) (n m : ℕ) (s : CoupledState σ),
      (runSteps E dt (n + m) s).1 = (runSteps E dt m (runSteps E dt n s).1).1) ∧
    intervalSteps 0 stimStop pdeTimeStep = 200 ∧
    intervalSteps stimStop timeStop pdeTimeStep = 500 ∧
    intervalSteps 0 timeStop pdeTimeStep = 700 ∧
    (∀ (σ : Type) (E : Engine σ) (s : CoupledState σ),
      (runInterval E stimStop timeStop pdeTimeStep
        (runInterval E 0 stimStop pdeTimeStep s).1).1 =
      (runInterval E 0 timeStop pdeTimeStep s).1) := by
  refine ⟨fun σ E dt n m s => runSteps_add E dt n m s,
    intervalSteps_eval.1, intervalSteps_eval.2.1, intervalSteps_eval.2.2, ?_⟩
  intro σ E s
  unfold runInterval
  rw [intervalSteps_eval.1, intervalSteps_eval.2.1, intervalSteps_eval.2.2]
  exact (runSteps_add E pdeTimeStep 200 500 s).symm

/-- Claim C5: for fixed per-node reaction dynamics and a deterministic
global diffusion solve, the decomposed run's voltage field is independent
of the node-to-domain assignment: in particular the 2-partition run equals
the 1-partition run exactly, at every node, after any number of PDE steps. -/
theorem claim5_partition_invariance :
    (∀ (domainA domainB : ℕ → ℕ) (react : ℕ → ℚ → ℚ)
        (diffuse : (ℕ → ℚ) → (ℕ → ℚ)) (k : ℕ) (f : ℕ → ℚ),
      partitionedRun domainA react diffuse k f =
        partitionedRun domainB react diffuse k f) ∧
    (∀ (react : ℕ → ℚ → ℚ) (diffuse : (ℕ → ℚ) → (ℕ → ℚ)) (k : ℕ)
        (f : ℕ → ℚ) (n : ℕ),
      partitionedRun twoDomain react diffuse k f n =
        partitionedRun singleDomain react diffuse k f n) := by
  refine ⟨fun dA dB react diffuse k f =>
    partitionedRun_domain_free react diffuse k dA dB f, ?_⟩
  intro react diffuse k f n
  rw [partitionedRun_domain_free react diffuse k twoDomain singleDomain]

/-- Claim C6: at simulation start every node's transmembrane potential is
initialised to the resting potential -75; and for any node the stimulus
push never touches, whose resting reaction value is an equilibrium of the
integrator, and which the diffusion solve and halo exchange leave
unchanged, the voltage stays at the resting potential for the whole run. -/
theorem claim6_resting_potential
    (σ : Type) (E : Engine σ) (dt : ℚ) (nd : ℕ) (s0 : CoupledState σ)
    (hPush : ∀ s, E.getV (E.pushStim s) nd = E.getV s nd)
    (hInt : ∀ (dt' : ℚ) (s : σ), E.getV s nd = initialVm →
      E.getV (E.integrate dt' s) nd = initialVm)
    (hDiff : ∀ (f : ℕ → ℚ) (dt' : ℚ), E.diffuse f dt' nd = f nd)
    (hSet : ∀ (f : ℕ → ℚ) (s : σ), E.getV (E.setV f s) nd = f nd)
    (hEx : ∀ f : ℕ → ℚ, E.exchange f nd = f nd)
    (h0r : E.getV s0.reaction nd = initialVm)
    (h0f : s0.field nd = initialVm) :
    (∀ n, initialVoltageField n = initialVm) ∧
    initialVm = -75 ∧
    ∀ k, E.getV (runSteps E dt k s0).1.reaction nd = initialVm ∧
      (runSteps E dt k s0).1.field nd = initialVm := by
  have hstep : ∀ s : CoupledState σ,
      E.getV s.reaction nd = initialVm → s.field nd = initialVm →
      E.getV (godunovStep E dt s).1.reaction nd = initialVm ∧
        (godunovStep E dt s).1.field nd = initialVm := by
    intro s h1 _h2
    have hR : E.getV (E.integrate dt (E.pushStim s.reaction)) nd = initialVm :=
      hInt dt _ (by rw [hPush]; exact h1)
    constructor
    · show E.getV (E.setV
        (E.diffuse (E.getV (E.integrate dt (E.pushStim s.reaction))) dt)
        (E.integrate dt (E.pushStim s.reaction))) nd = initialVm
      rw [hSet, hDiff, hR]
    · show E.exchange
        (E.diffuse (E.getV (E.integrate dt (E.pushStim s.reaction))) dt) nd = initialVm
      rw [hEx, hDiff, hR]
  have hrun : ∀ (k : ℕ) (s : CoupledState σ),
      E.getV s.reaction nd = initialVm → s.field nd = initialVm →
      E.getV (runSteps E dt k s).1.reaction nd = initialVm ∧
        (runSteps E dt k s).1.field nd = initialVm := by
    intro k
    induction k with
    | zero => intro s h1 h2; exact ⟨h1, h2⟩
    | succ k ih =>
      intro s h1 h2
      have h := hstep s h1 h2
      exact ih (godunovStep E dt s).1 h.1 h.2
  exact ⟨fun _ => rfl, rfl, fun k => hrun k s0 h0r h0f⟩

/-- Witness for C6 at a concrete engine, node and step count. -/
theorem claim6_witness :
    trivEngine.getV (runSteps trivEngine pdeTimeStep 2 restState).1.reaction 0 =
      initialVm ∧
    (runSteps trivEngine pdeTimeStep 2 restState).1.field 0 = initialVm :=
  (claim6_resting_potential (ℕ → ℚ) trivEngine pdeTimeStep 0 restState
    (fun _ => rfl) (fun _ _ h => h) (fun _ _ => rfl) (fun _ _ => rfl)
    (fun _ => rfl) rfl rfl).2.2 2

/-- Claim C7: the field coupler's push and pull are all-or-nothing over the
fixed name-to-name mapping declared at setup: a call fails with the
mapping-configuration error exactly when some mapped name does not resolve
in the reaction model — producing no updated state at all — and otherwise
copies every mapped variable for all owned nodes; with the script's
declared map (dependent field component 1 to "membrane/V"), owned nodes
get the voltage copied and nothing else is touched. -/
theorem claim7_coupler_all_or_nothing :
    (∀ (mapping : List (ℕ × String)) (m : ReactionModel),
      pushResolves mapping m = false ↔
        ∃ p ∈ mapping, m.vars.contains p.2 = false) ∧
    (∀ (mapping : List (ℕ × String)) (m : ReactionModel) (nodes : List ℕ)
        (fieldVal : ℕ → ℕ → ℚ) (rs : ℕ → String → ℚ),
      (pushResolves mapping m = false →
        pushToReaction mapping m nodes fieldVal rs = Except.error mappingError) ∧
      (pushResolves mapping m = true →
        pushToReaction mapping m nodes fieldVal rs =
          Except.ok (applyPush mapping nodes fieldVal rs))) ∧
    (∀ (mapping : List (String × ℕ)) (m : ReactionModel) (nodes : List ℕ)
        (rs : ℕ → String → ℚ) (fieldVal : ℕ → ℕ → ℚ),
      (pullResolves mapping m = false →
        pullFromReaction mapping m nodes rs fieldVal = Except.error mappingError) ∧
      (pullResolves mapping m = true →
        pullFromReaction mapping m nodes rs fieldVal =
          Except.ok (applyPull mapping nodes rs fieldVal))) ∧
    (∀ (nodes : List ℕ) (fieldVal : ℕ → ℕ → ℚ) (rs : ℕ → String → ℚ),
      (∀ n ∈ nodes,
        applyPush fieldToCellMLMaps nodes fieldVal rs n "membrane/V" = fieldVal 1 n) ∧
      (∀ (n : ℕ) (v : String), n ∉ nodes →
        applyPush fieldToCellMLMaps nodes fieldVal rs n v = rs n v) ∧
      (∀ n ∈ nodes, ∀ v : String, v ≠ "membrane/V" →
        applyPush fieldToCellMLMaps nodes fieldVal rs n v = rs n v)) ∧
    (∀ m : ReactionModel, m.vars.contains "membrane/V" = true →
      pushResolves fieldToCellMLMaps m = true ∧
        pullResolves cellMLToFieldMaps m = true) := by
  refine ⟨?_, ?_, ?_, ?_, ?_⟩
  · intro mapping m
    rw [← Bool.not_eq_true, pushResolves, List.all_eq_true]
    constructor
    · intro h
      push_neg at h
      obtain ⟨p, hp, hc⟩ := h
      exact ⟨p, hp, by simpa using hc⟩
    · rintro ⟨p, hp, hc⟩ hall
      rw [hall p hp] at hc
      exact Bool.noConfusion hc
  · intro mapping m nodes fieldVal rs
    constructor
    · intro h
      unfold pushToReaction
      rw [if_neg (by simp [h])]
    · intro h
      unfold pushToReaction
      rw [if_pos (by simp [h])]
  · intro mapping m nodes rs fieldVal
    constructor
    · intro h
      unfold pullFromReaction
      rw [if_neg (by simp [h])]
    · intro h
      unfold pullFromReaction
      rw [if_pos (by simp [h])]
  · intro nodes fieldVal rs
    refine ⟨?_, ?_, ?_⟩
    · intro n hn
      simp [applyPush, fieldToCellMLMaps, hn, List.find?]
    · intro n v hn
      simp [applyPush, hn]
    · intro n hn v hv
      have hbeq : (("membrane/V" == v) : Bool) = false := by
        rw [beq_eq_false_iff_ne]
        exact fun h => hv h.symm
      simp [applyPush, fieldToCellMLMaps, hn, List.find?, hbeq]
  · intro m hm
    constructor
    · simp only [pushResolves, fieldToCellMLMaps, List.all_cons, List.all_nil,
        Bool.and_true]
      exact hm
    · simp only [pullResolves, cellMLToFieldMaps, List.all_cons, List.all_nil,
        Bool.and_true]
      exact hm

/-- Witness for C7 at concrete inputs: with a model exposing "membrane/V"
the push succeeds and copies the voltage at an owned node; with a model
missing it, the call fails with the mapping-configuration error. -/
theorem claim7_witness :
    pushToReaction fieldToCellMLMaps ⟨["membrane/V"]⟩ [1, 2]
        (fun c n => (c : ℚ) + n) (fun _ _ => 0) =
      Except.ok (applyPush fieldToCellMLMaps [1, 2]
        (fun c n => (c : ℚ) + n) (fun _ _ => 0)) ∧
    applyPush fieldToCellMLMaps [1, 2]
      (fun c n => (c : ℚ) + n) (fun _ _ => 0) 2 "membrane/V" = 3 ∧
    pushToReaction fieldToCellMLMaps ⟨["membrane/x"]⟩ [1, 2]
        (fun c n => (c : ℚ) + n) (fun _ _ => 0) = Except.error mappingError := by
  refine ⟨(claim7_coupler_all_or_nothing.2.1 fieldToCellMLMaps ⟨["membrane/V"]⟩
      [1, 2] (fun c n => (c : ℚ) + n) (fun _ _ => 0)).2 (by decide),
    ?_,
    (claim7_coupler_all_or_nothing.2.1 fieldToCellMLMaps ⟨["membrane/x"]⟩
      [1, 2] (fun c n => (c : ℚ) + n) (fun _ _ => 0)).1 (by decide)⟩
  have h := (claim7_coupler_all_or_nothing.2.2.2.1 [1, 2]
    (fun c n => (c : ℚ) + n) (fun _ _ => 0)).1 2 (by decide)
  rw [h]
  norm_num

/-- Claim C8: `reconcile()` is idempotent — a second call with no
intervening field mutation leaves every worker's copy of every node
(halo copies included) exactly as after the first call; each node's value
is the owning worker's value. -/
theorem claim8_reconcile_idempotent :
    (∀ (domainOf : ℕ → ℕ) (fields : ℕ → ℕ → ℚ),
      reconcile domainOf (reconcile domainOf fields) = reconcile domainOf fields) ∧
    (∀ (domainOf : ℕ → ℕ) (fields : ℕ → ℕ → ℚ) (w n : ℕ),
      reconcile domainOf fields w n = fields (domainOf n) n) :=
  ⟨fun _ _ => rfl, fun _ _ _ _ => rfl⟩

/-- Claim C9: each stimulus write (stimValue on and 0.0 off) is guarded by
`nodeDomain == computationalNodeNumber`, so for every stimulated node
exactly one worker — the owner — performs the write, every write implies
ownership, and a worker's stimulus pass leaves every node it does not own
untouched. -/
theorem claim9_single_owner_writes :
    (∀ (domainOf : ℕ → ℕ) (n : ℕ), n ∈ stimulusNodes →
      ∃! w, writesStim domainOf w n) ∧
    (∀ (domainOf : ℕ → ℕ) (w n : ℕ), writesStim domainOf w n → domainOf n = w) ∧
    (∀ (v : ℚ) (domainOf : ℕ → ℕ) (w : ℕ) (p : ℕ → ℚ) (n : ℕ),
      domainOf n ≠ w → stimWrite v domainOf w p n = p n) := by
  refine ⟨?_, ?_, ?_⟩
  · intro domainOf n hn
    exact ⟨domainOf n, ⟨hn, rfl⟩, fun y hy => hy.2.symm⟩
  · intro domainOf w n hw
    exact hw.2
  · intro v domainOf w p n hne
    show (if n ∈ stimulusNodes ∧ domainOf n = w then v else p n) = p n
    rw [if_neg (fun hc => hne hc.2)]

/-- Witness for C9 at concrete inputs: under the two-partition decomposition,
node 3 is owned by worker 0, so a write of node 3 implies worker 0, and the
non-owner worker 1 leaves node 3's stimulus parameter unchanged. -/
theorem claim9_witness :
    twoDomain 3 = 0 ∧ stimWrite stimValue twoDomain 1 (fun _ => 0) 3 = 0 :=
  ⟨claim9_single_owner_writes.2.1 twoDomain 0 3 ⟨by decide, by decide⟩,
   claim9_single_owner_writes.2.2 stimValue twoDomain 1 (fun _ => 0) 3 (by decide)⟩

/-- Claim C10: the membrane capacitance seen by the two solvers is
consistent at setup — the diffusion materials field component 2 and the
reaction model's `"membrane/Cm"` parameter are both initialised to the same
constant Cm = 1.4 at every node. -/
theorem claim10_capacitance_consistent :
    (∀ n : ℕ, materialsFieldValue 2 n = Cm ∧ cellMLCmParameter n = Cm) ∧
    Cm = 14 / 10 :=
  ⟨fun _ => ⟨rfl, rfl⟩, rfl⟩

end Monodomain
